import Mathlib

/-!
# Verification of `MetronomeCore` (metronome-core)

A shallow embedding of `src/core/MetronomeCore.ts` and proofs of the
frozen claims about it.

Modelling conventions:
* JavaScript `number` values that hold times, tempos and frequencies are
  modelled as `ℚ` (the source only ever adds, subtracts, multiplies and
  divides them); `meter` and `pulse` are modelled as `ℤ` (the source
  compares and increments them integrally on every path the claims touch).
* The Web Audio objects are modelled by liveness flags
  (`audioContextLive`, `oscillatorLive`); the audio side effect of a tick
  is modelled by the `Payload` record that `playTick` hands to the engine.
* Callbacks are modelled by subscription ids (`ℕ`).  A notification pass
  appends to `invocations` the list of ids it invokes, in order, so
  "callback `c` is invoked" is `c ∈` that entry.
* The unbounded `while` loop of `scheduleLoop` is modelled by a
  fuel-indexed recursion `scheduleGo`; the returned `Bool` is `true`
  exactly when the loop reached its exit test (the guard became false)
  rather than running out of fuel.
-/

/-- The audio payload `playTick` schedules on the engine: the tick's exact
target time, the chosen frequency and the accent flag that chose it. -/
structure Payload where
  time : ℚ
  frequency : ℚ
  isAccented : Bool
  deriving Repr, DecidableEq

/-- One tick notification: the (already advanced) pulse, the accent flag
passed to tick observers, the exact target time, and the audio payload
(none when no audio context is live). -/
structure TickEvent where
  pulse : ℤ
  isAccented : Bool
  time : ℚ
  payload : Option Payload
  deriving Repr, DecidableEq

/-- `MetronomeConfig` from `types.ts`: every field optional. -/
structure MetronomeConfig where
  bpm : Option ℚ := none
  meter : Option ℤ := none
  accents : Option (List Bool) := none
  lookahead : Option ℚ := none
  scheduleAheadTime : Option ℚ := none
  minBpm : Option ℚ := none
  maxBpm : Option ℚ := none
  accentFrequency : Option ℚ := none
  normalFrequency : Option ℚ := none
  deriving Repr

/-- The mutable state of a `MetronomeCore` instance.  `invocations` is the
observer-invocation log (one entry per notification pass, listing the ids
invoked by that pass). -/
structure CoreState where
  nextTickTime : ℚ
  lastTickTime : ℚ
  timeOffset : ℚ
  schedulerArmed : Bool
  lookahead : ℚ
  scheduleAheadTime : ℚ
  minBpm : ℚ
  maxBpm : ℚ
  accentFrequency : ℚ
  normalFrequency : ℚ
  isPlaying : Bool
  pulse : ℤ
  meter : ℤ
  bpm : ℚ
  accents : List Bool
  stateCbs : List ℕ
  tickCbs : List ℕ
  audioContextLive : Bool
  oscillatorLive : Bool
  invocations : List (List ℕ)
  deriving Repr, DecidableEq

/-- `createDefaultAccents(meter)`: an all-`false` array of length `meter`
whose index 0 is set to `true` when `meter > 0`. -/
def createDefaultAccents (m : ℤ) : List Bool :=
  if 0 < m then (List.replicate m.toNat false).set 0 true
  else List.replicate m.toNat false

/-- The constructor: each config field defaulted, none validated. -/
def mkCore (config : MetronomeConfig) : CoreState :=
  let meter := config.meter.getD 4
  { nextTickTime := 0
    lastTickTime := 0
    timeOffset := 0
    schedulerArmed := false
    lookahead := config.lookahead.getD 25
    scheduleAheadTime := config.scheduleAheadTime.getD (1/10)
    minBpm := config.minBpm.getD 30
    maxBpm := config.maxBpm.getD 300
    accentFrequency := config.accentFrequency.getD 1200
    normalFrequency := config.normalFrequency.getD 800
    isPlaying := false
    pulse := 0
    meter := meter
    bpm := config.bpm.getD 90
    accents := config.accents.getD (createDefaultAccents meter)
    stateCbs := []
    tickCbs := []
    audioContextLive := false
    oscillatorLive := false
    invocations := [] }

/-- JavaScript `arr[i] ?? false` for a boolean array: out-of-range or
negative indices yield `undefined`, hence `false`. -/
def accentAt (l : List Bool) (i : ℤ) : Bool :=
  if h : 0 ≤ i ∧ i.toNat < l.length then l.get ⟨i.toNat, h.2⟩ else false

/-- `notifyStateChange()`: invokes every state-change callback (logged as
one invocation entry). -/
def notifyStateChange (s : CoreState) : CoreState :=
  { s with invocations := s.invocations ++ [s.stateCbs] }

/-- The tick-callback loop inside `tick()`: invokes every tick callback
(logged as one invocation entry). -/
def notifyTickCbs (s : CoreState) : CoreState :=
  { s with invocations := s.invocations ++ [s.tickCbs] }

/-- `set bpm(value)`: clamp to `[minBpm, maxBpm]`, then notify. -/
def setBpm (s : CoreState) (value : ℚ) : CoreState :=
  notifyStateChange { s with bpm := max s.minBpm (min s.maxBpm value) }

/-- `set meter(value)`: no-op when `value < 1`, else replace the meter,
re-derive default accents, and notify. -/
def setMeterProp (s : CoreState) (value : ℤ) : CoreState :=
  if value < 1 then s
  else notifyStateChange { s with meter := value, accents := createDefaultAccents value }

/-- `set accents(value)`: adopt a copy of the given array, notify. -/
def setAccents (s : CoreState) (value : List Bool) : CoreState :=
  notifyStateChange { s with accents := value }

/-- `increaseBpm(amount = 1)`. -/
def increaseBpm (s : CoreState) (amount : ℚ) : CoreState :=
  setBpm s (s.bpm + amount)

/-- `decreaseBpm(amount = 1)`. -/
def decreaseBpm (s : CoreState) (amount : ℚ) : CoreState :=
  setBpm s (s.bpm - amount)

/-- `setMeter(meter, accents?)`: no-op when `meter < 1`, else replace the
meter, adopt the supplied accents verbatim or re-derive defaults, notify. -/
def setMeter (s : CoreState) (meter : ℤ) (accents : Option (List Bool)) : CoreState :=
  if meter < 1 then s
  else notifyStateChange
    { s with meter := meter, accents := accents.getD (createDefaultAccents meter) }

/-- `toggleAccent(beatIndex)`: bounds-checked toggle, silent no-op outside. -/
def toggleAccent (s : CoreState) (beatIndex : ℤ) : CoreState :=
  if 0 ≤ beatIndex ∧ beatIndex.toNat < s.accents.length then
    notifyStateChange
      { s with accents := s.accents.set beatIndex.toNat (!(accentAt s.accents beatIndex)) }
  else s

/-- `setAccent(beatIndex, value)`: bounds-checked write, silent no-op outside. -/
def setAccent (s : CoreState) (beatIndex : ℤ) (value : Bool) : CoreState :=
  if 0 ≤ beatIndex ∧ beatIndex.toNat < s.accents.length then
    notifyStateChange { s with accents := s.accents.set beatIndex.toNat value }
  else s

/-- The pulse advance at the top of `tick()`:
`if (pulse >= meter) pulse = 1 else pulse += 1`. -/
def advancePulse (p m : ℤ) : ℤ :=
  if p ≥ m then 1 else p + 1

/-- `playTick(time)`: returns without a payload when no audio context is
live; otherwise lazily creates the oscillator, looks the accent flag up
defensively and schedules the frequency/envelope payload. -/
def playTick (s : CoreState) (time : ℚ) : CoreState × Option Payload :=
  if ¬ s.audioContextLive then (s, none)
  else
    let s1 := { s with oscillatorLive := true }
    let isAccented := accentAt s1.accents (s1.pulse - 1)
    let frequency := if isAccented then s1.accentFrequency else s1.normalFrequency
    (s1, some { time := time, frequency := frequency, isAccented := isAccented })

/-- `tick(time)`: advance the pulse, play the audio payload, notify tick
callbacks with `(pulse, isAccented, time)`, then notify state change. -/
def tickFn (s : CoreState) (time : ℚ) : CoreState × TickEvent :=
  let p := advancePulse s.pulse s.meter
  let s1 := { s with pulse := p }
  let Pr := playTick s1 time
  let isAccented := accentAt Pr.1.accents (Pr.1.pulse - 1)
  let s2 := notifyStateChange (notifyTickCbs Pr.1)
  (s2, { pulse := p, isAccented := isAccented, time := time, payload := Pr.2 })

/-- `calculateInterval()`: `60 / bpm`. -/
def calculateInterval (s : CoreState) : ℚ := 60 / s.bpm

/-- One iteration of the `while` body of `scheduleLoop`: schedule the tick
at the current `nextTickTime`, then advance `nextTickTime` by the interval
recomputed from the live bpm, and record `lastTickTime`. -/
def scheduleStep (s : CoreState) : CoreState × TickEvent :=
  let tickTime := s.nextTickTime
  let r := tickFn s tickTime
  let interval := calculateInterval r.1
  ({ r.1 with nextTickTime := r.1.nextTickTime + interval, lastTickTime := tickTime }, r.2)

/-- The `while (nextTickTime < currentTime + scheduleAheadTime)` loop,
fuel-indexed.  Returns the final state, the emitted tick events in order,
and `true` iff the loop exited by its own guard within the given fuel. -/
def scheduleGo : ℕ → CoreState → ℚ → CoreState × List TickEvent × Bool
  | 0, s, _ => (s, [], false)
  | fuel + 1, s, lim =>
    if s.nextTickTime < lim then
      let r := scheduleStep s
      let rest := scheduleGo fuel r.1 lim
      (rest.1, r.2 :: rest.2.1, rest.2.2)
    else (s, [], true)

/-- `scheduleLoop()`: bail out when not playing or no audio context (no
re-arm); otherwise run the while loop over the schedule-ahead window and
re-arm the timer. -/
def scheduleLoopFn (s : CoreState) (now : ℚ) (fuel : ℕ) :
    CoreState × List TickEvent × Bool :=
  if s.isPlaying ∧ s.audioContextLive then
    let r := scheduleGo fuel s (now + s.scheduleAheadTime)
    ({ r.1 with schedulerArmed := true }, r.2.1, r.2.2)
  else (s, [], true)

/-- `start()` at clock time `t`: no-op when already playing; otherwise
acquire the audio context, set `isPlaying`, reset the pulse, restore the
phase via `timeOffset`, run one scheduling pass, notify state change. -/
def start (s : CoreState) (t : ℚ) (fuel : ℕ) : CoreState × List TickEvent :=
  if s.isPlaying then (s, [])
  else
    let s1 := { s with audioContextLive := true, isPlaying := true, pulse := 0,
                       nextTickTime := t + s.timeOffset }
    let r := scheduleLoopFn s1 t fuel
    (notifyStateChange r.1, r.2.1)

/-- `stop()` at clock time `t`: no-op when already stopped; otherwise
clear `isPlaying`, force `pulse` to 0, save the phase offset (when an
audio context is live), cancel the pending re-arm, tear down the audio
nodes, notify state change. -/
def stop (s : CoreState) (t : ℚ) : CoreState :=
  if ¬ s.isPlaying then s
  else
    let s1 := { s with isPlaying := false, pulse := 0 }
    let s2 := if s1.audioContextLive then { s1 with timeOffset := s1.nextTickTime - t } else s1
    notifyStateChange { s2 with schedulerArmed := false, oscillatorLive := false }

/-- `toggle()` at clock time `t`. -/
def toggleFn (s : CoreState) (t : ℚ) (fuel : ℕ) : CoreState × List TickEvent :=
  if s.isPlaying then (stop s t, []) else start s t fuel

/-- `handle(newBpm?)`: clamp-assign the bpm directly (no notification)
when given, then toggle. -/
def handleFn (s : CoreState) (newBpm : Option ℚ) (t : ℚ) (fuel : ℕ) :
    CoreState × List TickEvent :=
  let s1 := match newBpm with
    | some v => { s with bpm := max s.minBpm (min s.maxBpm v) }
    | none => s
  toggleFn s1 t fuel

/-- The list-removal performed by the unsubscribe closures: `indexOf` then
`splice(index, 1)` when the element was found. -/
def unsubList (l : List ℕ) (c : ℕ) : List ℕ :=
  let i := l.indexOf c
  if i < l.length then l.eraseIdx i else l

/-- `onTick(cb)`: push the callback. -/
def onTick (s : CoreState) (c : ℕ) : CoreState :=
  { s with tickCbs := s.tickCbs ++ [c] }

/-- `onStateChange(cb)`: push the callback. -/
def onStateChange (s : CoreState) (c : ℕ) : CoreState :=
  { s with stateCbs := s.stateCbs ++ [c] }

/-- The closure returned by `onTick`: remove the callback by identity. -/
def unsubscribeTick (s : CoreState) (c : ℕ) : CoreState :=
  { s with tickCbs := unsubList s.tickCbs c }

/-- The closure returned by `onStateChange`: remove the callback by identity. -/
def unsubscribeState (s : CoreState) (c : ℕ) : CoreState :=
  { s with stateCbs := unsubList s.stateCbs c }

/-- `dispose()` at clock time `t`: stop, clear both registries, release
the audio context. -/
def dispose (s : CoreState) (t : ℚ) : CoreState :=
  let s1 := stop s t
  { s1 with stateCbs := [], tickCbs := [], audioContextLive := false }

/-! ## Basic facts about the embedded operations -/

/-- `unsubList` is removal of the first occurrence. -/
theorem unsubList_eq_erase (l : List ℕ) (c : ℕ) : unsubList l c = l.erase c := by
  unfold unsubList
  by_cases h : c ∈ l
  · simp [List.indexOf_lt_length.mpr h, List.eraseIdx_indexOf_eq_erase]
  · have hle : l.length ≤ l.indexOf c := by
      by_contra hlt
      exact h (List.indexOf_lt_length.mp (Nat.lt_of_not_le hlt))
    simp [Nat.not_lt.mpr hle, List.erase_of_not_mem h]

/-- The default accent array always has length `meter.toNat`. -/
theorem createDefaultAccents_length (m : ℤ) :
    (createDefaultAccents m).length = m.toNat := by
  unfold createDefaultAccents
  split <;> simp

/-- Out-of-range lookups in the accent array degrade to `false`. -/
theorem accentAt_eq_false (l : List Bool) (i : ℤ) (h : (l.length : ℤ) ≤ i ∨ i < 0) :
    accentAt l i = false := by
  unfold accentAt
  rcases h with h | h
  · rcases Nat.lt_or_ge i.toNat l.length with hlt | hge
    · exfalso
      rcases Int.le_or_lt 0 i with hi | hi
      · have : (i.toNat : ℤ) < (l.length : ℤ) := by exact_mod_cast hlt
        rw [Int.toNat_of_nonneg hi] at this
        exact absurd h (not_le.mpr this)
      · have : (l.length : ℤ) < 0 := lt_of_le_of_lt h hi
        exact absurd (Int.ofNat_nonneg l.length) (not_le.mpr this)
    · simp [Nat.not_lt.mpr hge]
  · simp [not_le.mpr h]

/-- The state after `tick(time)`: the pulse advances, the oscillator is
live whenever the audio context is, and one tick-callback pass plus one
state-change pass are logged; nothing else changes. -/
theorem tickFn_fst (s : CoreState) (t : ℚ) :
    (tickFn s t).1 = { s with pulse := advancePulse s.pulse s.meter,
                              oscillatorLive := s.audioContextLive || s.oscillatorLive,
                              invocations := s.invocations ++ [s.tickCbs, s.stateCbs] } := by
  unfold tickFn playTick notifyTickCbs notifyStateChange
  by_cases h : s.audioContextLive <;> simp [h]

/-- The event emitted by `tick(time)`. -/
theorem tickFn_snd (s : CoreState) (t : ℚ) :
    (tickFn s t).2 =
      { pulse := advancePulse s.pulse s.meter,
        isAccented := accentAt s.accents (advancePulse s.pulse s.meter - 1),
        time := t,
        payload := if s.audioContextLive then
            some { time := t,
                   frequency := if accentAt s.accents (advancePulse s.pulse s.meter - 1)
                     then s.accentFrequency else s.normalFrequency,
                   isAccented := accentAt s.accents (advancePulse s.pulse s.meter - 1) }
          else none } := by
  unfold tickFn playTick
  by_cases h : s.audioContextLive <;> simp [h]

/-- The state after one iteration of the scheduling loop body. -/
theorem scheduleStep_fst (s : CoreState) :
    (scheduleStep s).1 = { s with pulse := advancePulse s.pulse s.meter,
                                  oscillatorLive := s.audioContextLive || s.oscillatorLive,
                                  invocations := s.invocations ++ [s.tickCbs, s.stateCbs],
                                  nextTickTime := s.nextTickTime + 60 / s.bpm,
                                  lastTickTime := s.nextTickTime } := by
  unfold scheduleStep calculateInterval
  dsimp only
  rw [tickFn_fst]

/-- The event emitted by one iteration of the scheduling loop body. -/
theorem scheduleStep_snd (s : CoreState) :
    (scheduleStep s).2 = (tickFn s s.nextTickTime).2 := rfl

/-- One scheduling pass never touches tempo/meter/accent state, transport
flags, the observer registries, or the saved offset. -/
theorem scheduleGo_preserved (f : ℕ) (s : CoreState) (lim : ℚ) :
    (scheduleGo f s lim).1.bpm = s.bpm ∧
    (scheduleGo f s lim).1.tickCbs = s.tickCbs ∧
    (scheduleGo f s lim).1.stateCbs = s.stateCbs ∧
    (scheduleGo f s lim).1.isPlaying = s.isPlaying ∧
    (scheduleGo f s lim).1.audioContextLive = s.audioContextLive ∧
    (scheduleGo f s lim).1.meter = s.meter ∧
    (scheduleGo f s lim).1.accents = s.accents ∧
    (scheduleGo f s lim).1.minBpm = s.minBpm ∧
    (scheduleGo f s lim).1.maxBpm = s.maxBpm ∧
    (scheduleGo f s lim).1.timeOffset = s.timeOffset := by
  induction f generalizing s with
  | zero => exact ⟨rfl, rfl, rfl, rfl, rfl, rfl, rfl, rfl, rfl, rfl⟩
  | succ n ih =>
    unfold scheduleGo
    dsimp only
    split
    · rw [scheduleStep_fst]
      exact ih _
    · exact ⟨rfl, rfl, rfl, rfl, rfl, rfl, rfl, rfl, rfl, rfl⟩

/-- Whatever tick a pass emits first is scheduled at the incoming
`nextTickTime`. -/
theorem scheduleGo_head_time (f : ℕ) (s : CoreState) (lim : ℚ) :
    ∀ e ∈ (scheduleGo f s lim).2.1.head?, e.time = s.nextTickTime := by
  cases f with
  | zero => intro e he; simp [scheduleGo] at he
  | succ n =>
    intro e he
    unfold scheduleGo at he
    dsimp only at he
    by_cases hdue : s.nextTickTime < lim
    · rw [if_pos hdue] at he
      simp only [List.head?_cons, Option.mem_def, Option.some.injEq] at he
      subst he
      rw [scheduleStep_snd, tickFn_snd]
    · rw [if_neg hdue] at he
      simp at he

/-- A pass that emits nothing leaves `nextTickTime` unchanged. -/
theorem scheduleGo_nil_next (f : ℕ) (s : CoreState) (lim : ℚ)
    (h : (scheduleGo f s lim).2.1 = []) :
    (scheduleGo f s lim).1.nextTickTime = s.nextTickTime := by
  cases f with
  | zero => rfl
  | succ n =>
    unfold scheduleGo at h ⊢
    dsimp only at h ⊢
    by_cases hdue : s.nextTickTime < lim
    · rw [if_pos hdue] at h
      simp at h
    · rw [if_neg hdue]

/-- Within one pass, consecutive emitted target times differ by exactly
`60 / bpm` at the pass's (constant) bpm. -/
theorem scheduleGo_chain (f : ℕ) (s : CoreState) (lim : ℚ) :
    ((scheduleGo f s lim).2.1).Chain' (fun e₁ e₂ => e₂.time = e₁.time + 60 / s.bpm) := by
  induction f generalizing s with
  | zero => simp [scheduleGo]
  | succ n ih =>
    unfold scheduleGo
    dsimp only
    split
    · apply List.Chain'.cons'
      · rw [scheduleStep_fst]
        exact ih _
      · intro y hy
        have ht := scheduleGo_head_time n (scheduleStep s).1 lim y hy
        rw [scheduleStep_fst] at ht
        rw [ht, scheduleStep_snd, tickFn_snd]
    · simp

/-- After any pass, `nextTickTime` has advanced by the number of emitted
ticks times the interval. -/
theorem scheduleGo_next_eq (f : ℕ) (s : CoreState) (lim : ℚ) :
    (scheduleGo f s lim).1.nextTickTime
      = s.nextTickTime + ((scheduleGo f s lim).2.1.length : ℚ) * (60 / s.bpm) := by
  induction f generalizing s with
  | zero => simp [scheduleGo]
  | succ n ih =>
    unfold scheduleGo
    dsimp only
    split
    · rw [scheduleStep_fst]
      rw [ih _]
      dsimp only
      simp only [List.length_cons]
      push_cast
      ring
    · simp

/-- When exactly `k` ticks are due inside the window and the fuel covers
them, the emitted target times are precisely the arithmetic progression
starting at `nextTickTime` with step `60 / bpm`. -/
theorem scheduleGo_events_of_window :
    ∀ (k f : ℕ) (s : CoreState) (lim : ℚ), k ≤ f →
    (∀ j : ℕ, j < k → s.nextTickTime + j * (60 / s.bpm) < lim) →
    (lim ≤ s.nextTickTime + k * (60 / s.bpm)) →
    (scheduleGo f s lim).2.1.map TickEvent.time
      = (List.range k).map (fun j : ℕ => s.nextTickTime + (j : ℚ) * (60 / s.bpm)) := by
  intro k
  induction k with
  | zero =>
    intro f s lim _ _ h2
    simp only [Nat.cast_zero, zero_mul, add_zero] at h2
    cases f with
    | zero => simp [scheduleGo]
    | succ n =>
      unfold scheduleGo
      dsimp only
      rw [if_neg (not_lt.mpr h2)]
      simp
  | succ k ih =>
    intro f s lim hkf h1 h2
    obtain ⟨m, rfl⟩ : ∃ m, f = m + 1 := ⟨f - 1, by omega⟩
    have hdue : s.nextTickTime < lim := by
      have := h1 0 (Nat.succ_pos k)
      simpa using this
    unfold scheduleGo
    dsimp only
    rw [if_pos hdue]
    have hnx : (scheduleStep s).1.nextTickTime = s.nextTickTime + 60 / s.bpm := by
      rw [scheduleStep_fst]
    have hbp : (scheduleStep s).1.bpm = s.bpm := by
      rw [scheduleStep_fst]
    have h1' : ∀ j : ℕ, j < k →
        (scheduleStep s).1.nextTickTime + j * (60 / (scheduleStep s).1.bpm) < lim := by
      intro j hj
      rw [hnx, hbp]
      have e : s.nextTickTime + 60 / s.bpm + j * (60 / s.bpm)
          = s.nextTickTime + ((j + 1 : ℕ) : ℚ) * (60 / s.bpm) := by
        push_cast
        ring
      rw [e]
      exact h1 (j + 1) (by omega)
    have h2' : lim ≤ (scheduleStep s).1.nextTickTime + k * (60 / (scheduleStep s).1.bpm) := by
      rw [hnx, hbp]
      have e : s.nextTickTime + 60 / s.bpm + k * (60 / s.bpm)
          = s.nextTickTime + ((k + 1 : ℕ) : ℚ) * (60 / s.bpm) := by
        push_cast
        ring
      rw [e]
      exact h2
    have hrest := ih m (scheduleStep s).1 lim (by omega) h1' h2'
    rw [hnx, hbp] at hrest
    simp only [List.map_cons, hrest, scheduleStep_snd, tickFn_snd]
    rw [List.range_succ_eq_map]
    simp only [List.map_cons, List.map_map, Nat.cast_zero, zero_mul, add_zero]
    congr 1
    apply List.map_congr_left
    intro j _
    simp only [Function.comp_apply]
    push_cast
    ring

/-- With fuel beyond the number of due ticks, the pass reaches its exit
test (the `while` loop terminates within the fuel). -/
theorem scheduleGo_completes_of_bound :
    ∀ (k f : ℕ) (s : CoreState) (lim : ℚ), k < f →
    (lim ≤ s.nextTickTime + k * (60 / s.bpm)) →
    (scheduleGo f s lim).2.2 = true := by
  intro k
  induction k with
  | zero =>
    intro f s lim hf h2
    obtain ⟨m, rfl⟩ : ∃ m, f = m + 1 := ⟨f - 1, by omega⟩
    simp only [Nat.cast_zero, zero_mul, add_zero] at h2
    unfold scheduleGo
    dsimp only
    rw [if_neg (not_lt.mpr h2)]
  | succ k ih =>
    intro f s lim hf h2
    obtain ⟨m, rfl⟩ : ∃ m, f = m + 1 := ⟨f - 1, by omega⟩
    unfold scheduleGo
    dsimp only
    by_cases hdue : s.nextTickTime < lim
    · rw [if_pos hdue]
      apply ih m (scheduleStep s).1 lim (by omega)
      rw [scheduleStep_fst]
      dsimp only
      have e : s.nextTickTime + 60 / s.bpm + k * (60 / s.bpm)
          = s.nextTickTime + ((k + 1 : ℕ) : ℚ) * (60 / s.bpm) := by
        push_cast
        ring
      rw [e]
      exact h2
    · rw [if_neg hdue]

/-! ## Claim theorems: scheduling -/

/-- C1: At fixed bpm, every pair of consecutively scheduled tick target
times within a run differs by exactly `60/bpm` seconds; the interval added
after scheduling a tick is recomputed from the bpm current at that moment,
so a bpm change affects only ticks not yet scheduled, never the tick being
scheduled: (1) after a bpm edit, the very next scheduled tick still fires
at the pre-edit `nextTickTime`; (2) the interval then added is `60 /` the
freshly clamped bpm; (3) within one pass consecutive target times differ
by exactly `60/bpm`; (4) a pass begins exactly at the incoming
`nextTickTime`; (5) a pass ends with `nextTickTime` one interval past the
last emitted tick, so the law also holds across passes at fixed bpm. -/
theorem tick_interval_law :
    (∀ (s : CoreState) (b : ℚ), (scheduleStep (setBpm s b)).2.time = s.nextTickTime) ∧
    (∀ (s : CoreState) (b : ℚ),
      (scheduleStep (setBpm s b)).1.nextTickTime
        = s.nextTickTime + 60 / (setBpm s b).bpm) ∧
    (∀ (f : ℕ) (s : CoreState) (lim : ℚ),
      ((scheduleGo f s lim).2.1).Chain' (fun e₁ e₂ => e₂.time = e₁.time + 60 / s.bpm)) ∧
    (∀ (f : ℕ) (s : CoreState) (lim : ℚ), 0 < f → s.nextTickTime < lim →
      ((scheduleGo f s lim).2.1.map TickEvent.time).head? = some s.nextTickTime) ∧
    (∀ (f : ℕ) (s : CoreState) (lim : ℚ),
      (scheduleGo f s lim).1.nextTickTime
        = s.nextTickTime + ((scheduleGo f s lim).2.1.length : ℚ) * (60 / s.bpm)) := by
  refine ⟨?_, ?_, scheduleGo_chain, ?_, scheduleGo_next_eq⟩
  · intro s b
    rw [scheduleStep_snd, tickFn_snd]
    rfl
  · intro s b
    rw [scheduleStep_fst]
    rfl
  · intro f s lim hf hdue
    obtain ⟨n, rfl⟩ : ∃ n, f = n + 1 := ⟨f - 1, by omega⟩
    unfold scheduleGo
    dsimp only
    rw [if_pos hdue]
    simp only [List.map_cons, List.head?_cons, Option.some.injEq]
    rw [scheduleStep_snd, tickFn_snd]

/-- Witness for C1 at a concrete state: the head of a one-tick pass is the
incoming `nextTickTime`. -/
theorem tick_interval_law_witness :
    ((scheduleGo 1 (mkCore {}) 1).2.1.map TickEvent.time).head? = some (mkCore {}).nextTickTime :=
  tick_interval_law.2.2.2.1 1 (mkCore {}) 1 (by decide) (by decide)

/-- A concrete playing state used to witness the multi-tick pass claim:
bpm 300 and a 0.6 s window, so ticks at 0, 0.2 and 0.4 are all due. -/
def demoPassState : CoreState :=
  { mkCore { bpm := some 300, scheduleAheadTime := some (3/5) } with
      isPlaying := true, audioContextLive := true }

/-- C3: for every state with bpm within `[minBpm, maxBpm]`, whenever
`k ≥ 1` ticks fall due inside the schedule-ahead window at the moment of a
single poll pass, that one pass emits exactly `k` distinct tick
notifications with `k` strictly increasing target times, never collapsing
multiple due ticks into one and never skipping a beat. -/
theorem schedulePass_emits_all_due (s : CoreState) (now : ℚ) (k f : ℕ)
    (hplay : s.isPlaying = true) (hctx : s.audioContextLive = true)
    (hminpos : 0 < s.minBpm) (hlo : s.minBpm ≤ s.bpm) (_hhi : s.bpm ≤ s.maxBpm)
    (_hk : 1 ≤ k) (hkf : k ≤ f)
    (hdue : ∀ j : ℕ, j < k →
      s.nextTickTime + (j : ℚ) * (60 / s.bpm) < now + s.scheduleAheadTime)
    (hend : now + s.scheduleAheadTime ≤ s.nextTickTime + (k : ℚ) * (60 / s.bpm)) :
    (scheduleLoopFn s now f).2.1.length = k ∧
    ((scheduleLoopFn s now f).2.1.map TickEvent.time).Pairwise (· < ·) ∧
    ((scheduleLoopFn s now f).2.1.map TickEvent.time).Nodup := by
  have hbpm : 0 < s.bpm := lt_of_lt_of_le hminpos hlo
  have hivl : (0 : ℚ) < 60 / s.bpm := div_pos (by norm_num) hbpm
  have hmap := scheduleGo_events_of_window k f s (now + s.scheduleAheadTime) hkf hdue hend
  unfold scheduleLoopFn
  rw [if_pos ⟨hplay, hctx⟩]
  dsimp only
  have hpw : ((scheduleGo f s (now + s.scheduleAheadTime)).2.1.map TickEvent.time).Pairwise
      (· < ·) := by
    rw [hmap, List.pairwise_map]
    exact (List.pairwise_lt_range k).imp fun hab =>
      add_lt_add_left (mul_lt_mul_of_pos_right (by exact_mod_cast hab) hivl) _
  refine ⟨?_, hpw, hpw.imp ne_of_lt⟩
  have := congrArg List.length hmap
  simpa using this

/-- Witness for C3: with bpm 300 and a 0.6 s window, one pass emits
exactly 3 ticks. -/
theorem schedulePass_emits_all_due_witness :
    (scheduleLoopFn demoPassState 0 3).2.1.length = 3 := by
  refine (schedulePass_emits_all_due demoPassState 0 3 3 rfl rfl ?_ ?_ ?_ ?_ ?_ ?_ ?_).1
  · norm_num [demoPassState, mkCore]
  · norm_num [demoPassState, mkCore]
  · norm_num [demoPassState, mkCore]
  · norm_num
  · norm_num
  · intro j hj
    interval_cases j <;> norm_num [demoPassState, mkCore]
  · norm_num [demoPassState, mkCore]

/-- C10: a single scheduling pass terminates (reaches the loop's exit
test) for every current clock time provided the bpm is strictly positive;
and that positivity is not discharged by construction, since the
constructor stores a configured bpm without validation. -/
theorem schedulePass_terminates :
    (∀ (s : CoreState) (lim : ℚ), 0 < s.bpm →
      ∃ f, (scheduleGo f s lim).2.2 = true) ∧
    (mkCore { bpm := some 0 }).bpm = 0 := by
  refine ⟨?_, rfl⟩
  intro s lim hb
  have hivl : (0 : ℚ) < 60 / s.bpm := div_pos (by norm_num) hb
  obtain ⟨n, hn⟩ := exists_nat_ge ((lim - s.nextTickTime) / (60 / s.bpm))
  have hbound : lim ≤ s.nextTickTime + (n : ℚ) * (60 / s.bpm) := by
    have := (div_le_iff₀ hivl).mp hn
    linarith
  exact ⟨n + 1, scheduleGo_completes_of_bound n (n + 1) s lim (Nat.lt_succ_self n) hbound⟩

/-- Witness for C10: the default-constructed state (bpm 90) terminates. -/
theorem schedulePass_terminates_witness :
    ∃ f, (scheduleGo f (mkCore {}) 1).2.2 = true :=
  schedulePass_terminates.1 (mkCore {}) 1 (by decide)

/-! ## Claim theorems: transport -/

/-- The time at which the next tick will actually sound after a
(start-style) call that may already have scheduled some ticks: the first
tick emitted by the call, or the pending `nextTickTime` when the call
scheduled none. -/
def nextScheduled (r : CoreState × List TickEvent) : ℚ :=
  match r.2.head? with
  | some e => e.time
  | none => r.1.nextTickTime

/-- The next tick a pass will deliver is the incoming `nextTickTime`,
whether or not the pass already emitted it. -/
theorem scheduleGo_nextScheduled (f : ℕ) (s : CoreState) (lim : ℚ) :
    nextScheduled ((scheduleGo f s lim).1, (scheduleGo f s lim).2.1) = s.nextTickTime := by
  unfold nextScheduled
  cases he : (scheduleGo f s lim).2.1 with
  | nil => exact scheduleGo_nil_next f s lim he
  | cons e es =>
    have := scheduleGo_head_time f s lim e (by rw [he]; rfl)
    simpa [he] using this

/-- C2: pause/resume phase continuity.  If the metronome is stopped at
clock time `T` while `nextTickTime = T + d`, and `start()` is later called
at clock time `T'` with no bpm or meter change in between, the next
scheduled tick time equals `T' + d` — the phase remainder `d` is preserved
via `timeOffset` — not `T' + 60/bpm` from a reset phase. -/
theorem pause_resume_phase (s : CoreState) (T Tp : ℚ) (f : ℕ)
    (hplay : s.isPlaying = true) (hctx : s.audioContextLive = true) :
    nextScheduled (start (stop s T) Tp f) = Tp + (s.nextTickTime - T) := by
  have hstop : stop s T
      = notifyStateChange
          { s with isPlaying := false, pulse := 0,
                   timeOffset := s.nextTickTime - T, schedulerArmed := false,
                   oscillatorLive := false } := by
    unfold stop
    rw [if_neg (by simp [hplay])]
    dsimp only
    rw [if_pos (by simpa using hctx)]
  rw [hstop]
  unfold start scheduleLoopFn
  dsimp only [notifyStateChange]
  have hgo := scheduleGo_nextScheduled f
    { s with isPlaying := true, pulse := 0,
             timeOffset := s.nextTickTime - T, schedulerArmed := false,
             oscillatorLive := false, audioContextLive := true,
             invocations := s.invocations ++ [s.stateCbs],
             nextTickTime := Tp + (s.nextTickTime - T) }
    (Tp + s.scheduleAheadTime)
  unfold nextScheduled at hgo ⊢
  dsimp only at hgo ⊢
  convert hgo using 2

/-- Witness for C2 at a concrete playing state. -/
def resumeDemoState : CoreState :=
  { mkCore {} with isPlaying := true, audioContextLive := true, nextTickTime := 7/2 }

/-- Witness for C2: stopping at time 3 with `nextTickTime = 7/2` and
restarting at time 10 schedules the next tick at `10 + 1/2`. -/
theorem pause_resume_phase_witness :
    nextScheduled (start (stop resumeDemoState 3) 10 2)
      = 10 + (resumeDemoState.nextTickTime - 3) :=
  pause_resume_phase resumeDemoState 3 10 2 rfl rfl

/-! ## Claim theorems: pulse, bpm, meter, accents -/

/-- Once the pulse hits 1, iterating the advance cycles `1..m` forever. -/
theorem advancePulse_iter_eq_of_one (m : ℤ) (hm : 1 ≤ m) (N : ℕ) (p₀ : ℤ)
    (hN : (fun p => advancePulse p m)^[N] p₀ = 1) :
    ∀ j : ℕ, (fun p => advancePulse p m)^[N + j] p₀ = (j : ℤ) % m + 1 := by
  intro j
  induction j with
  | zero => simpa using hN
  | succ j ih =>
    rw [show N + (j + 1) = (N + j) + 1 from rfl, Function.iterate_succ_apply', ih]
    have hj0 : (0 : ℤ) ≤ (j : ℤ) % m := Int.emod_nonneg _ (by omega)
    have hjm : (j : ℤ) % m < m := Int.emod_lt_of_pos _ (by omega)
    have hsplit : ((j : ℤ) + 1) % m = ((j : ℤ) % m + 1) % m := by
      conv_lhs => rw [show (j : ℤ) = m * ((j : ℤ) / m) + (j : ℤ) % m from
        (Int.ediv_add_emod _ _).symm]
      rw [show m * ((j : ℤ) / m) + (j : ℤ) % m + 1
            = ((j : ℤ) % m + 1) + m * ((j : ℤ) / m) from by ring]
      rw [Int.add_mul_emod_self_left]
    unfold advancePulse
    by_cases hc : (j : ℤ) % m + 1 ≥ m
    · have he : (j : ℤ) % m + 1 = m := by omega
      rw [if_pos hc]
      push_cast
      rw [hsplit, he, Int.emod_self]
      ring
    · have h1 : (0 : ℤ) ≤ (j : ℤ) % m + 1 := by omega
      have h2 : (j : ℤ) % m + 1 < m := by omega
      rw [if_neg hc]
      push_cast
      rw [hsplit, Int.emod_eq_of_lt h1 h2]

/-- From any starting pulse, iterating the advance eventually reaches 1. -/
theorem advancePulse_reaches_one (m : ℤ) (_hm : 1 ≤ m) (p₀ : ℤ) :
    ∃ N, (fun p => advancePulse p m)^[N] p₀ = 1 := by
  by_cases h : p₀ ≥ m
  · exact ⟨1, by simp [advancePulse, h]⟩
  · have key : ∀ k : ℕ, (k : ℤ) ≤ m - p₀ → (fun p => advancePulse p m)^[k] p₀ = p₀ + k := by
      intro k
      induction k with
      | zero => simp
      | succ k ih =>
        intro hk
        rw [Function.iterate_succ_apply', ih (by push_cast at hk ⊢; omega)]
        unfold advancePulse
        rw [if_neg (by push_cast at hk ⊢; omega)]
        push_cast
        ring
    refine ⟨(m - p₀).toNat + 1, ?_⟩
    have hc : ((m - p₀).toNat : ℤ) = m - p₀ := Int.toNat_of_nonneg (by omega)
    rw [Function.iterate_succ_apply', key _ (by omega)]
    unfold advancePulse
    rw [if_pos (by omega)]

/-- C4 (amended): every scheduled tick advances the pulse by the rule
`pulse = (pulse >= meter) ? 1 : pulse + 1` — which agrees with the claimed
`==` comparison whenever `1 ≤ pulse ≤ meter` — so from any starting pulse
the sequence eventually cycles `1..meter..1..meter...`; and `stop()` sets
the pulse to 0 immediately. -/
theorem pulse_cycle :
    (∀ (s : CoreState) (t : ℚ), (tickFn s t).1.pulse = advancePulse s.pulse s.meter) ∧
    (∀ p m : ℤ, 1 ≤ p → p ≤ m → advancePulse p m = if p = m then 1 else p + 1) ∧
    (∀ (m p₀ : ℤ), 1 ≤ m → ∃ N, ∀ j : ℕ,
      (fun p => advancePulse p m)^[N + j] p₀ = (j : ℤ) % m + 1) ∧
    (∀ (s : CoreState) (t : ℚ), s.isPlaying = true → (stop s t).pulse = 0) := by
  refine ⟨?_, ?_, ?_, ?_⟩
  · intro s t
    rw [tickFn_fst]
  · intro p m h1 h2
    unfold advancePulse
    by_cases hc : p = m
    · simp [hc]
    · rw [if_neg (by omega), if_neg hc]
  · intro m p₀ hm
    obtain ⟨N, hN⟩ := advancePulse_reaches_one m hm p₀
    exact ⟨N, advancePulse_iter_eq_of_one m hm N p₀ hN⟩
  · intro s t hplay
    unfold stop
    rw [if_neg (by simp [hplay])]
    dsimp only
    split <;> rfl

/-- A state whose pulse exceeds its meter (reachable by shrinking the
meter mid-play: `setMeter` does not reset the pulse). -/
def pulseDemoState : CoreState := { mkCore {} with pulse := 5 }

/-- Counterexample to C4 as stated: at `pulse = 5`, `meter = 4` the code
wraps to 1 (it compares with `>=`), while the claimed
`pulse = (pulse == meter) ? 1 : pulse + 1` rule would yield 6. -/
theorem pulse_cycle_cex :
    ¬ ((tickFn pulseDemoState 0).1.pulse
        = if pulseDemoState.pulse = pulseDemoState.meter then 1
          else pulseDemoState.pulse + 1) := by
  rw [tickFn_fst]
  decide

/-- Witness for C4 at concrete inputs. -/
theorem pulse_cycle_witness :
    advancePulse 4 4 = (if (4 : ℤ) = 4 then 1 else 4 + 1) ∧
    (stop { mkCore {} with isPlaying := true } 0).pulse = 0 :=
  ⟨pulse_cycle.2.1 4 4 (by decide) (by decide),
   pulse_cycle.2.2.2 { mkCore {} with isPlaying := true } 0 rfl⟩

/-- C5 (amended): every write through the bpm setter is clamped into
`[minBpm, maxBpm]` (so with default bounds writing 20 stores 30 and 400
stores 300), but the constructor stores the configured bpm without
validation, so the in-range invariant need not hold immediately after
construction. -/
theorem bpm_clamped (s : CoreState) (v : ℚ) (h : s.minBpm ≤ s.maxBpm) :
    (s.minBpm ≤ (setBpm s v).bpm ∧ (setBpm s v).bpm ≤ s.maxBpm) ∧
    (setBpm (mkCore {}) 20).bpm = 30 ∧
    (setBpm (mkCore {}) 400).bpm = 300 ∧
    (∀ b : ℚ, (mkCore { bpm := some b }).bpm = b) := by
  refine ⟨⟨le_max_left _ _, max_le h (min_le_left _ _)⟩, ?_, ?_, fun b => rfl⟩
  · show max (30 : ℚ) (min 300 20) = 30
    norm_num
  · show max (30 : ℚ) (min 300 400) = 300
    norm_num

/-- Counterexample to C5 as stated: constructing with `bpm: 20` under the
default bounds stores 20, below `minBpm = 30`. -/
theorem bpm_clamped_cex :
    ¬ ((mkCore { bpm := some 20 }).minBpm ≤ (mkCore { bpm := some 20 }).bpm) := by
  show ¬ ((30 : ℚ) ≤ 20)
  norm_num

/-- Witness for C5: a huge setter write is clamped to the range. -/
theorem bpm_clamped_witness :
    (mkCore {}).minBpm ≤ (setBpm (mkCore {}) 1000).bpm ∧
    (setBpm (mkCore {}) 1000).bpm ≤ (mkCore {}).maxBpm :=
  (bpm_clamped (mkCore {}) 1000 (by norm_num [mkCore])).1

/-- C6 (amended): the meter setter, `setMeter` without an explicit accents
argument, and construction without a configured accents array all
re-derive the accent array at length `meter`; but `setMeter` with an
explicit array, the accents setter, and construction with a configured
array adopt the supplied array verbatim, so `len(accents) == meter` then
holds only when the supplied length matches the meter. -/
theorem accents_length_invariant (s : CoreState) (m : ℤ) (a : List Bool)
    (cfg : MetronomeConfig) (hm : 1 ≤ m) :
    (((setMeterProp s m).accents.length : ℤ) = (setMeterProp s m).meter) ∧
    (((setMeter s m none).accents.length : ℤ) = (setMeter s m none).meter) ∧
    ((setMeter s m (some a)).accents = a) ∧
    ((setAccents s a).accents = a ∧ (setAccents s a).meter = s.meter) ∧
    (cfg.accents = none → 1 ≤ (mkCore cfg).meter →
      ((mkCore cfg).accents.length : ℤ) = (mkCore cfg).meter) ∧
    ((mkCore { accents := some a }).accents = a) := by
  have hlen : ∀ k : ℤ, 1 ≤ k → ((createDefaultAccents k).length : ℤ) = k := by
    intro k hk
    rw [createDefaultAccents_length]
    exact Int.toNat_of_nonneg (by omega)
  refine ⟨?_, ?_, ?_, ⟨rfl, rfl⟩, ?_, rfl⟩
  · unfold setMeterProp
    rw [if_neg (by omega)]
    exact hlen m hm
  · unfold setMeter
    rw [if_neg (by omega)]
    exact hlen m hm
  · unfold setMeter
    rw [if_neg (by omega)]
    rfl
  · intro hnone hmeter
    show ((cfg.accents.getD (createDefaultAccents (cfg.meter.getD 4))).length : ℤ)
      = cfg.meter.getD 4
    rw [hnone]
    exact hlen _ hmeter

/-- Counterexample to C6 as stated: the accents setter adopts a length-1
array while the meter stays 4, breaking `len(accents) == meter`. -/
theorem accents_length_invariant_cex :
    ¬ (((setAccents (mkCore {}) [true]).accents.length : ℤ)
        = (setAccents (mkCore {}) [true]).meter) := by
  decide

/-- Witness for C6: `setMeter(3)` re-derives a length-3 array. -/
theorem accents_length_invariant_witness :
    ((setMeterProp (mkCore {}) 3).accents.length : ℤ) = (setMeterProp (mkCore {}) 3).meter :=
  (accents_length_invariant (mkCore {}) 3 [true] {} (by decide)).1

/-- C7: the tick-scheduling path is total by construction, and when the
accents array is shorter than the advanced pulse the accent lookup
degrades to `false` both in the audio payload handed to the engine (with
the normal, unaccented frequency) and in the arguments passed to tick
observers. -/
theorem tick_defensive (s : CoreState) (t : ℚ)
    (h : (s.accents.length : ℤ) < advancePulse s.pulse s.meter) :
    (tickFn s t).2.isAccented = false ∧
    (∀ p ∈ (tickFn s t).2.payload,
      p.isAccented = false ∧ p.frequency = s.normalFrequency) := by
  have hfalse : accentAt s.accents (advancePulse s.pulse s.meter - 1) = false :=
    accentAt_eq_false _ _ (Or.inl (by omega))
  rw [tickFn_snd]
  refine ⟨by simpa using hfalse, ?_⟩
  intro p hp
  by_cases hc : s.audioContextLive
  · simp only [hc, if_true, Option.mem_def, Option.some.injEq] at hp
    subst hp
    simp [hfalse]
  · simp [hc] at hp

/-- Witness for C7: with an empty accents array the first tick is
unaccented. -/
theorem tick_defensive_witness :
    (tickFn { mkCore {} with accents := [] } 0).2.isAccented = false :=
  (tick_defensive { mkCore {} with accents := [] } 0 (by decide)).1

/-- C9: for every `m < 1`, `setMeter(m, accents?)` and the meter setter
are complete no-ops: the whole state — meter, accents, notification log —
is unchanged, and no error is raised (the operations are total). -/
theorem setMeter_rejects_lt_one (s : CoreState) (m : ℤ)
    (a : Option (List Bool)) (h : m < 1) :
    setMeter s m a = s ∧ setMeterProp s m = s := by
  refine ⟨?_, ?_⟩
  · unfold setMeter
    rw [if_pos h]
  · unfold setMeterProp
    rw [if_pos h]

/-- Witness for C9: `setMeter(0)` leaves the default state untouched. -/
theorem setMeter_rejects_lt_one_witness :
    setMeter (mkCore {}) 0 none = mkCore {} ∧ setMeterProp (mkCore {}) 0 = mkCore {} :=
  setMeter_rejects_lt_one (mkCore {}) 0 none (by decide)

/-! ## Claim theorems: observer registries -/

/-- The public operations of the core, as data, so that arbitrary call
sequences after an unsubscribe can be quantified over. -/
inductive Op where
  | setBpmOp (v : ℚ)
  | setMeterPropOp (m : ℤ)
  | setMeterOp (m : ℤ) (a : Option (List Bool))
  | setAccentsOp (a : List Bool)
  | toggleAccentOp (i : ℤ)
  | setAccentOp (i : ℤ) (b : Bool)
  | increaseBpmOp (a : ℚ)
  | decreaseBpmOp (a : ℚ)
  | startOp (t : ℚ) (fuel : ℕ)
  | stopOp (t : ℚ)
  | toggleOp (t : ℚ) (fuel : ℕ)
  | handleOp (b : Option ℚ) (t : ℚ) (fuel : ℕ)
  | disposeOp (t : ℚ)
  | pollOp (now : ℚ) (fuel : ℕ)
  | onTickOp (c : ℕ)
  | onStateOp (c : ℕ)
  | unsubTickOp (c : ℕ)
  | unsubStateOp (c : ℕ)
  deriving DecidableEq

/-- Interpretation of one public operation on the state. -/
def applyOp : Op → CoreState → CoreState
  | .setBpmOp v, s => setBpm s v
  | .setMeterPropOp m, s => setMeterProp s m
  | .setMeterOp m a, s => setMeter s m a
  | .setAccentsOp a, s => setAccents s a
  | .toggleAccentOp i, s => toggleAccent s i
  | .setAccentOp i b, s => setAccent s i b
  | .increaseBpmOp a, s => increaseBpm s a
  | .decreaseBpmOp a, s => decreaseBpm s a
  | .startOp t fuel, s => (start s t fuel).1
  | .stopOp t, s => stop s t
  | .toggleOp t fuel, s => (toggleFn s t fuel).1
  | .handleOp b t fuel, s => (handleFn s b t fuel).1
  | .disposeOp t, s => dispose s t
  | .pollOp now fuel, s => (scheduleLoopFn s now fuel).1
  | .onTickOp c, s => onTick s c
  | .onStateOp c, s => onStateChange s c
  | .unsubTickOp c, s => unsubscribeTick s c
  | .unsubStateOp c, s => unsubscribeState s c

/-- Interpretation of a call sequence. -/
def applyOps (ops : List Op) (s : CoreState) : CoreState :=
  ops.foldl (fun s o => applyOp o s) s

/-- `c` is registered in neither observer registry. -/
def NotRegistered (c : ℕ) (s : CoreState) : Prop :=
  c ∉ s.tickCbs ∧ c ∉ s.stateCbs

@[simp] theorem notifyStateChange_tickCbs (u : CoreState) :
    (notifyStateChange u).tickCbs = u.tickCbs := rfl

@[simp] theorem notifyStateChange_stateCbs (u : CoreState) :
    (notifyStateChange u).stateCbs = u.stateCbs := rfl

/-- Membership in the log after a state-change notification. -/
theorem mem_notify_invocations (u : CoreState) (l : List ℕ) :
    l ∈ (notifyStateChange u).invocations ↔ l ∈ u.invocations ∨ l = u.stateCbs := by
  simp [notifyStateChange]

/-- Every invocation entry a pass adds lists one of the two registries. -/
theorem scheduleGo_invocations (f : ℕ) (s : CoreState) (lim : ℚ) :
    ∀ l ∈ (scheduleGo f s lim).1.invocations,
      l ∈ s.invocations ∨ l = s.tickCbs ∨ l = s.stateCbs := by
  induction f generalizing s with
  | zero => exact fun l hl => Or.inl hl
  | succ n ih =>
    intro l hl
    unfold scheduleGo at hl
    dsimp only at hl
    by_cases hdue : s.nextTickTime < lim
    · rw [if_pos hdue] at hl
      have hrec := ih (scheduleStep s).1 l hl
      rw [scheduleStep_fst] at hrec
      dsimp only at hrec
      rcases hrec with h | h | h
      · rcases List.mem_append.mp h with h' | h'
        · exact Or.inl h'
        · rcases List.mem_cons.mp h' with h'' | h''
          · exact Or.inr (Or.inl h'')
          · exact Or.inr (Or.inr (List.mem_singleton.mp h''))
      · exact Or.inr (Or.inl h)
      · exact Or.inr (Or.inr h)
    · rw [if_neg hdue] at hl
      exact Or.inl hl

/-- A pass leaves both registries untouched. -/
theorem scheduleLoopFn_cbs (s : CoreState) (now : ℚ) (fuel : ℕ) :
    (scheduleLoopFn s now fuel).1.tickCbs = s.tickCbs ∧
    (scheduleLoopFn s now fuel).1.stateCbs = s.stateCbs := by
  unfold scheduleLoopFn
  split
  · dsimp only
    exact ⟨(scheduleGo_preserved _ _ _).2.1, (scheduleGo_preserved _ _ _).2.2.1⟩
  · exact ⟨rfl, rfl⟩

/-- A pass only adds invocation entries that avoid an unregistered id. -/
theorem scheduleLoopFn_invocations (c : ℕ) (s : CoreState) (now : ℚ) (fuel : ℕ)
    (h : NotRegistered c s) :
    ∀ l ∈ (scheduleLoopFn s now fuel).1.invocations, l ∈ s.invocations ∨ c ∉ l := by
  obtain ⟨h1, h2⟩ := h
  unfold scheduleLoopFn
  split
  · dsimp only
    intro l hl
    rcases scheduleGo_invocations _ _ _ l hl with h | h | h
    · exact Or.inl h
    · subst h; exact Or.inr h1
    · subst h; exact Or.inr h2
  · exact fun l hl => Or.inl hl

/-- Notifying after a record update that keeps registries and log intact
is safe for an unregistered id. -/
theorem notify_record_safe (c : ℕ) (s u : CoreState)
    (hT : u.tickCbs = s.tickCbs) (hS : u.stateCbs = s.stateCbs)
    (hI : u.invocations = s.invocations)
    (h1 : c ∉ s.tickCbs) (h2 : c ∉ s.stateCbs) :
    NotRegistered c (notifyStateChange u) ∧
    ∀ l ∈ (notifyStateChange u).invocations, l ∈ s.invocations ∨ c ∉ l := by
  refine ⟨⟨by simpa [hT] using h1, by simpa [hS] using h2⟩, ?_⟩
  intro l hl
  rcases (mem_notify_invocations u l).mp hl with hl' | hl'
  · exact Or.inl (hI ▸ hl')
  · subst hl'
    exact Or.inr (hS ▸ h2)

/-- `stop` is safe for an unregistered id. -/
theorem stop_safe (c : ℕ) (t : ℚ) (s : CoreState) (h : NotRegistered c s) :
    NotRegistered c (stop s t) ∧
    ∀ l ∈ (stop s t).invocations, l ∈ s.invocations ∨ c ∉ l := by
  obtain ⟨h1, h2⟩ := h
  unfold stop
  split
  · exact ⟨⟨h1, h2⟩, fun l hl => Or.inl hl⟩
  · dsimp only
    split
    · exact notify_record_safe c s _ rfl rfl rfl h1 h2
    · exact notify_record_safe c s _ rfl rfl rfl h1 h2

/-- `start` is safe for an unregistered id. -/
theorem start_safe (c : ℕ) (t : ℚ) (fuel : ℕ) (s : CoreState) (h : NotRegistered c s) :
    NotRegistered c (start s t fuel).1 ∧
    ∀ l ∈ (start s t fuel).1.invocations, l ∈ s.invocations ∨ c ∉ l := by
  obtain ⟨h1, h2⟩ := h
  unfold start
  split
  · exact ⟨⟨h1, h2⟩, fun l hl => Or.inl hl⟩
  · dsimp only
    constructor
    · constructor
      · simpa [(scheduleLoopFn_cbs _ t fuel).1] using h1
      · simpa [(scheduleLoopFn_cbs _ t fuel).2] using h2
    · intro l hl
      rcases (mem_notify_invocations _ l).mp hl with hl' | hl'
      · have hsafe := scheduleLoopFn_invocations c _ t fuel (by exact ⟨h1, h2⟩) l hl'
        exact hsafe
      · subst hl'
        rw [(scheduleLoopFn_cbs _ t fuel).2]
        exact Or.inr h2

/-- `toggle` is safe for an unregistered id. -/
theorem toggle_safe (c : ℕ) (t : ℚ) (fuel : ℕ) (s : CoreState) (h : NotRegistered c s) :
    NotRegistered c (toggleFn s t fuel).1 ∧
    ∀ l ∈ (toggleFn s t fuel).1.invocations, l ∈ s.invocations ∨ c ∉ l := by
  unfold toggleFn
  split
  · exact stop_safe c t s h
  · exact start_safe c t fuel s h

/-- `dispose` is safe for an unregistered id. -/
theorem dispose_safe (c : ℕ) (t : ℚ) (s : CoreState) (h : NotRegistered c s) :
    NotRegistered c (dispose s t) ∧
    ∀ l ∈ (dispose s t).invocations, l ∈ s.invocations ∨ c ∉ l := by
  refine ⟨⟨by simp [dispose], by simp [dispose]⟩, ?_⟩
  intro l hl
  exact (stop_safe c t s h).2 l hl

/-- `handle` is safe for an unregistered id. -/
theorem handle_safe (c : ℕ) (nb : Option ℚ) (t : ℚ) (fuel : ℕ) (s : CoreState)
    (h : NotRegistered c s) :
    NotRegistered c (handleFn s nb t fuel).1 ∧
    ∀ l ∈ (handleFn s nb t fuel).1.invocations, l ∈ s.invocations ∨ c ∉ l := by
  obtain ⟨h1, h2⟩ := h
  cases nb with
  | none => exact toggle_safe c t fuel s ⟨h1, h2⟩
  | some v =>
    have hsafe := toggle_safe c t fuel
      { s with bpm := max s.minBpm (min s.maxBpm v) } (by exact ⟨h1, h2⟩)
    exact hsafe

/-- No public operation other than re-registering `c` itself can put `c`
back into a registry or produce an invocation entry containing `c`. -/
theorem applyOp_safe (c : ℕ) (o : Op) (s : CoreState)
    (h : NotRegistered c s) (ht : o ≠ Op.onTickOp c) (hs : o ≠ Op.onStateOp c) :
    NotRegistered c (applyOp o s) ∧
    ∀ l ∈ (applyOp o s).invocations, l ∈ s.invocations ∨ c ∉ l := by
  obtain ⟨h1, h2⟩ := h
  cases o with
  | setBpmOp v =>
    exact notify_record_safe c s _ rfl rfl rfl h1 h2
  | setMeterPropOp m =>
    simp only [applyOp]
    unfold setMeterProp
    split
    · exact ⟨⟨h1, h2⟩, fun l hl => Or.inl hl⟩
    · exact notify_record_safe c s _ rfl rfl rfl h1 h2
  | setMeterOp m a =>
    simp only [applyOp]
    unfold setMeter
    split
    · exact ⟨⟨h1, h2⟩, fun l hl => Or.inl hl⟩
    · exact notify_record_safe c s _ rfl rfl rfl h1 h2
  | setAccentsOp a =>
    exact notify_record_safe c s _ rfl rfl rfl h1 h2
  | toggleAccentOp i =>
    simp only [applyOp]
    unfold toggleAccent
    split
    · exact notify_record_safe c s _ rfl rfl rfl h1 h2
    · exact ⟨⟨h1, h2⟩, fun l hl => Or.inl hl⟩
  | setAccentOp i b =>
    simp only [applyOp]
    unfold setAccent
    split
    · exact notify_record_safe c s _ rfl rfl rfl h1 h2
    · exact ⟨⟨h1, h2⟩, fun l hl => Or.inl hl⟩
  | increaseBpmOp a =>
    exact notify_record_safe c s _ rfl rfl rfl h1 h2
  | decreaseBpmOp a =>
    exact notify_record_safe c s _ rfl rfl rfl h1 h2
  | startOp t fuel =>
    simp only [applyOp]
    exact start_safe c t fuel s ⟨h1, h2⟩
  | stopOp t =>
    simp only [applyOp]
    exact stop_safe c t s ⟨h1, h2⟩
  | toggleOp t fuel =>
    simp only [applyOp]
    exact toggle_safe c t fuel s ⟨h1, h2⟩
  | handleOp b t fuel =>
    simp only [applyOp]
    exact handle_safe c b t fuel s ⟨h1, h2⟩
  | disposeOp t =>
    simp only [applyOp]
    exact dispose_safe c t s ⟨h1, h2⟩
  | pollOp now fuel =>
    simp only [applyOp]
    refine ⟨⟨?_, ?_⟩, scheduleLoopFn_invocations c s now fuel ⟨h1, h2⟩⟩
    · rw [(scheduleLoopFn_cbs s now fuel).1]
      exact h1
    · rw [(scheduleLoopFn_cbs s now fuel).2]
      exact h2
  | onTickOp d =>
    have hdc : d ≠ c := fun he => ht (by rw [he])
    refine ⟨⟨?_, h2⟩, fun l hl => Or.inl hl⟩
    simp only [applyOp, onTick, List.mem_append, List.mem_singleton]
    rintro (hc | hc)
    · exact h1 hc
    · exact hdc hc.symm
  | onStateOp d =>
    have hdc : d ≠ c := fun he => hs (by rw [he])
    refine ⟨⟨h1, ?_⟩, fun l hl => Or.inl hl⟩
    simp only [applyOp, onStateChange, List.mem_append, List.mem_singleton]
    rintro (hc | hc)
    · exact h2 hc
    · exact hdc hc.symm
  | unsubTickOp d =>
    refine ⟨⟨?_, h2⟩, fun l hl => Or.inl hl⟩
    show c ∉ unsubList s.tickCbs d
    rw [unsubList_eq_erase]
    exact fun hc => h1 (List.mem_of_mem_erase hc)
  | unsubStateOp d =>
    refine ⟨⟨h1, ?_⟩, fun l hl => Or.inl hl⟩
    show c ∉ unsubList s.stateCbs d
    rw [unsubList_eq_erase]
    exact fun hc => h2 (List.mem_of_mem_erase hc)

/-- Over any call sequence that never re-registers `c`, the id stays out
of both registries and out of every new invocation entry. -/
theorem applyOps_safe (c : ℕ) (ops : List Op) :
    ∀ s : CoreState, NotRegistered c s →
    Op.onTickOp c ∉ ops → Op.onStateOp c ∉ ops →
    NotRegistered c (applyOps ops s) ∧
    ∀ l ∈ (applyOps ops s).invocations, l ∈ s.invocations ∨ c ∉ l := by
  induction ops with
  | nil => exact fun s h _ _ => ⟨h, fun l hl => Or.inl hl⟩
  | cons o ops ih =>
    intro s h hT hS
    have ho := applyOp_safe c o s h
      (by rintro rfl; exact hT (List.mem_cons_self _ _))
      (by rintro rfl; exact hS (List.mem_cons_self _ _))
    have hrec := ih (applyOp o s) ho.1
      (fun hm => hT (List.mem_cons_of_mem _ hm))
      (fun hm => hS (List.mem_cons_of_mem _ hm))
    refine ⟨hrec.1, ?_⟩
    intro l hl
    rcases hrec.2 l hl with hl' | hl'
    · exact ho.2 l hl'
    · exact Or.inr hl'

/-- Invoking both unsubscribe closures returned for callback `c`. -/
def unsubscribeBoth (s : CoreState) (c : ℕ) : CoreState :=
  unsubscribeState (unsubscribeTick s c) c

/-- C8: after the unsubscribe function returned by `onTick` or
`onStateChange` is invoked for a callback registered once, that callback
is removed from its registry, is never invoked by any subsequent tick or
state-change notification (over any call sequence that does not
re-register it), while every other still-registered callback remains
registered — and since each notification pass invokes exactly its
registry, those others continue to be invoked. -/
theorem unsubscribe_blocks (s : CoreState) (c : ℕ) (ops : List Op)
    (h1 : s.tickCbs.count c = 1) (h2 : s.stateCbs.count c = 1)
    (hT : Op.onTickOp c ∉ ops) (hS : Op.onStateOp c ∉ ops) :
    (c ∉ (unsubscribeBoth s c).tickCbs ∧ c ∉ (unsubscribeBoth s c).stateCbs) ∧
    (∀ d, d ≠ c →
      ((d ∈ (unsubscribeBoth s c).tickCbs ↔ d ∈ s.tickCbs) ∧
       (d ∈ (unsubscribeBoth s c).stateCbs ↔ d ∈ s.stateCbs))) ∧
    ((notifyTickCbs (unsubscribeBoth s c)).invocations
        = (unsubscribeBoth s c).invocations ++ [(unsubscribeBoth s c).tickCbs] ∧
     (notifyStateChange (unsubscribeBoth s c)).invocations
        = (unsubscribeBoth s c).invocations ++ [(unsubscribeBoth s c).stateCbs]) ∧
    (∀ l ∈ (applyOps ops (unsubscribeBoth s c)).invocations,
      l ∈ (unsubscribeBoth s c).invocations ∨ c ∉ l) := by
  have htick : (unsubscribeBoth s c).tickCbs = s.tickCbs.erase c := by
    show unsubList s.tickCbs c = s.tickCbs.erase c
    exact unsubList_eq_erase _ _
  have hstate : (unsubscribeBoth s c).stateCbs = s.stateCbs.erase c := by
    show unsubList s.stateCbs c = s.stateCbs.erase c
    exact unsubList_eq_erase _ _
  have hnm1 : c ∉ (unsubscribeBoth s c).tickCbs := by
    rw [htick]
    apply List.count_eq_zero.mp
    rw [List.count_erase_self, h1]
  have hnm2 : c ∉ (unsubscribeBoth s c).stateCbs := by
    rw [hstate]
    apply List.count_eq_zero.mp
    rw [List.count_erase_self, h2]
  refine ⟨⟨hnm1, hnm2⟩, ?_, ⟨rfl, rfl⟩, ?_⟩
  · intro d hd
    rw [htick, hstate]
    exact ⟨List.mem_erase_of_ne hd, List.mem_erase_of_ne hd⟩
  · exact (applyOps_safe c ops (unsubscribeBoth s c) ⟨hnm1, hnm2⟩ hT hS).2

/-- A state with two callbacks registered in each registry. -/
def unsubDemoState : CoreState :=
  { mkCore {} with tickCbs := [1, 2], stateCbs := [1, 2] }

/-- Witness for C8: unsubscribing id 1 removes it from both registries. -/
theorem unsubscribe_blocks_witness :
    1 ∉ (unsubscribeBoth unsubDemoState 1).tickCbs ∧
    1 ∉ (unsubscribeBoth unsubDemoState 1).stateCbs :=
  (unsubscribe_blocks unsubDemoState 1 [Op.setBpmOp 100] (by decide) (by decide)
    (by decide) (by decide)).1
